import Mathlib

/-!
Shallow embedding of the wisconsin-shell (`wsh`) command interpreter
(`src/wsh.c`, `src/dynamic_array.c`) and verification of the frozen claims.

Conventions of the embedding:
* C strings are Lean `String`s / `List Char`s.
* The tokenizer `parseline_no_subst` is embedded as `parseline`; the C
  routine's "argc = 0 after a diagnostic" error outcome is `none`, its
  ordinary outcome (including a genuinely empty token list) is `some tokens`.
* Process-wide mutable state (`rc`, the alias hash map, the history dynamic
  array, the `PATH` environment variable) is the record `ShellState`.
* Interactions with the operating system (the `access(2)` executability
  check, `fork(2)` success, `waitpid(2)` results of children, `chdir(2)`,
  `HOME`) are oracles bundled in `Env`.
* Undefined behaviour actually present in the source (a NULL pointer handed
  to `strcmp`, the `size_t` underflow in `da_print`) is modelled explicitly
  as the outcome `crash` with a tag naming the offending site.
* The fixed constant `MAX_ARGS` lives in a header that is not part of the
  sources; it is carried as an explicit parameter `maxArgs` wherever the
  code reads it.
-/

namespace Wsh

/-! ### Character-level helpers shared by the tokenizer and the dispatcher -/

/-- Remove one trailing newline, as both the history filter and the
tokenizer preamble of `parseline_no_subst` do (`buf[len-1] = ...`). -/
def stripNl (l : List Char) : List Char :=
  if l.getLast? = some '\n' then l.dropLast else l

/-- The buffer the tokenizer actually scans: the trailing newline is
replaced by a space, and a space is appended when there was no newline
(`parseline_no_subst`, lines 1092-1107). Both cases equal
`stripNl l ++ [' ']`. -/
def prepBuf (l : List Char) : List Char :=
  stripNl l ++ [' ']

/-- Mode of the tokenizer scan: between tokens, inside an unquoted token
(with the characters read so far), or inside a single-quoted span. -/
inductive SMode where
  | sep : SMode
  | plain : List Char → SMode
  | quoted : List Char → SMode
deriving Repr, DecidableEq

/-- The scanning loop of `parseline_no_subst` (lines 1109-1156) as a
character automaton.  Separators are plain spaces only; a single quote
opens a quoted span only at the start of a token; a quote inside an
unquoted token is an ordinary character; an unterminated quoted span is
the hard parse error (`none`); an unquoted token not terminated by a
space is dropped (the `break` branch, unreachable because the prepared
buffer always ends in a space). -/
def scan : SMode → List Char → Option (List (List Char))
  | .sep, [] => some []
  | .plain _, [] => some []
  | .quoted _, [] => none
  | .sep, c :: r =>
    if c = ' ' then scan .sep r
    else if c = '\'' then scan (.quoted []) r
    else scan (.plain [c]) r
  | .plain acc, c :: r =>
    if c = ' ' then (scan .sep r).map (acc :: ·)
    else scan (.plain (acc ++ [c])) r
  | .quoted acc, c :: r =>
    if c = '\'' then (scan .sep r).map (acc :: ·)
    else scan (.quoted (acc ++ [c])) r

/-- The characters a scanner mode has already accumulated. -/
def SMode.acc : SMode → List Char
  | .sep => []
  | .plain a => a
  | .quoted a => a

/-- `parseline_no_subst`: `none` is the missing-closing-quote error path
(diagnostic emitted, every produced token freed, `argc = 0`); `some ts`
is a successful parse producing `ts` in order. -/
def parseline (s : String) : Option (List String) :=
  (scan .sep (prepBuf s.data)).map (·.map String.mk)

/-- Tokenizer modes without the accumulated characters. -/
inductive QMode where
  | sep : QMode
  | plain : QMode
  | quoted : QMode
deriving Repr, DecidableEq

/-- A scan that merely reports whether the tokenizer hits a single quote
opening a token that is never closed — the condition under which
`parseline_no_subst` aborts. -/
def hasOpenQuote : QMode → List Char → Bool
  | .quoted, [] => true
  | .sep, [] => false
  | .plain, [] => false
  | .sep, c :: r =>
    if c = ' ' then hasOpenQuote .sep r
    else if c = '\'' then hasOpenQuote .quoted r
    else hasOpenQuote .plain r
  | .plain, c :: r =>
    if c = ' ' then hasOpenQuote .sep r
    else hasOpenQuote .plain r
  | .quoted, c :: r =>
    if c = '\'' then hasOpenQuote .sep r
    else hasOpenQuote .quoted r

/-- Forget a scanner mode's accumulator. -/
def qmodeOf : SMode → QMode
  | .sep => .sep
  | .plain _ => .plain
  | .quoted _ => .quoted

/-- Split a character list at every occurrence of `sep` (all chunks kept,
empty ones included), the shape `execute_command` produces with repeated
`strchr(segment_start, sep)` calls. -/
def splitOnCh (sep : Char) : List Char → List (List Char)
  | [] => [[]]
  | c :: r =>
    if c = sep then [] :: splitOnCh sep r
    else
      match splitOnCh sep r with
      | [] => [[c]]
      | h :: t => (c :: h) :: t

/-- The history filter of the dispatcher (`execute_command`, lines
463-477): the line is recorded iff, after stripping one trailing newline,
it contains a character outside `strspn`'s set `" \t"`.  (The `strlen > 0`
guard of the C code is implied: an empty line has no such character.) -/
def hasNonWs (s : String) : Bool :=
  (stripNl s.data).any (fun c => ¬(c = ' ' ∨ c = '\t'))

/-- `strchr(cmdline, '|') != NULL`: the dispatcher's pipeline test. -/
def hasPipe (s : String) : Bool :=
  s.data.contains '|'

/-! ### The alias hash map, reduced to its association-list contract -/

/-- `hm_get`: value stored under a key, if any. -/
def hm_get (m : List (String × String)) (k : String) : Option String :=
  match m with
  | [] => none
  | (k', v') :: rest => if k' = k then some v' else hm_get rest k

/-- `hm_put`: insert-or-replace. -/
def hm_put (m : List (String × String)) (k v : String) : List (String × String) :=
  match m with
  | [] => [(k, v)]
  | (k', v') :: rest => if k' = k then (k, v) :: rest else (k', v') :: hm_put rest k v

/-- `hm_delete`: remove a key; removing an absent key is a no-op. -/
def hm_delete (m : List (String × String)) (k : String) : List (String × String) :=
  match m with
  | [] => []
  | (k', v') :: rest => if k' = k then rest else (k', v') :: hm_delete rest k

/-! ### Shared interpreter state and operating-system oracles -/

/-- The process-wide mutable state of the interpreter: `rc` (the last
recorded return code), the alias table, the history array, and the value
of the `PATH` environment variable (`none` models an unset variable). -/
structure ShellState where
  rc : Nat
  aliases : List (String × String)
  history : List String
  pathEnv : Option String
deriving Repr, DecidableEq

/-- State after `main`'s initialisation: empty alias table and history,
`setenv("PATH", "/bin:/usr/bin", 1)`. -/
def initState : ShellState :=
  { rc := 0, aliases := [], history := [], pathEnv := some "/bin:/usr/bin" }

/-- Outcome of one `waitpid` on a child: the call itself failed, the child
exited with a code (`WIFEXITED`), or it was terminated abnormally. -/
inductive WaitRes where
  | err : WaitRes
  | exited : Nat → WaitRes
  | signaled : WaitRes
deriving Repr, DecidableEq

/-- `waitpid` returned `-1`. -/
def WaitRes.isErr : WaitRes → Bool
  | .err => true
  | _ => false

/-- Operating-system oracles: executability of a path (`access(p, X_OK) == 0`),
the `HOME` variable, `chdir` success, `fork` success for a single external
command, the wait outcome of an external command (keyed by resolved path and
argument vector), and the wait outcome of each pipeline segment's child
(keyed by the segment's final text). -/
structure Env where
  fs : String → Bool
  home : Option String
  chdirOk : String → Bool
  forkOk : Bool
  extWait : String → List String → WaitRes
  segWait : String → WaitRes

/-! ### Path resolution -/

/-- The direct-check test of `find_executable_path` (line 748) and of
`execute_external_command` (line 389):
`name[0] == '/' || (name[0] == '.' && name[1] == '/')`, where reading the
terminating NUL of a shorter string makes the comparison false. -/
def isDirectFind (name : String) : Bool :=
  match name.data with
  | [] => false
  | c1 :: rest =>
    c1 = '/' || (c1 = '.' && (match rest with | [] => false | c2 :: _ => c2 = '/'))

/-- The direct-check test of `wsh_which` (line 179):
`name[0] == '.' || name[0] == '/'` — broader than `isDirectFind`. -/
def isDirectWhich (name : String) : Bool :=
  match name.data with
  | [] => false
  | c1 :: _ => c1 = '.' || c1 = '/'

/-- The `strtok(path_copy, ":")` sequence: the maximal non-empty chunks
between colons. -/
def strtokColon (p : String) : List (List Char) :=
  (splitOnCh ':' p.data).filter (· ≠ [])

/-- The directory probe loop of `find_executable_path` (lines 770-791):
`sprintf(temp_path, "%s/%s", dir, name)` then `access(temp_path, X_OK)`,
first hit wins. -/
def searchLoop (fs : String → Bool) (name : String) : List (List Char) → Option String
  | [] => none
  | d :: rest =>
    let cand := String.mk d ++ "/" ++ name
    if fs cand then some cand else searchLoop fs name rest

/-- `find_executable_path` (lines 746-794). -/
def find_executable_path (fs : String → Bool) (pathEnv : Option String)
    (name : String) : Option String :=
  if isDirectFind name then
    if fs name then some name else none
  else
    match pathEnv with
    | none => none
    | some p => if p = "" then none else searchLoop fs name (strtokColon p)

/-- The directory probe loop inside `wsh_which` (lines 204-226); written
separately because the C code duplicates it. -/
def whichSearchLoop (fs : String → Bool) (name : String) : List (List Char) → Option String
  | [] => none
  | d :: rest =>
    let cand := String.mk d ++ "/" ++ name
    if fs cand then some cand else whichSearchLoop fs name rest

/-- The path-candidate computation of `wsh_which` (lines 177-229): direct
check when the first character is `.` or `/`, otherwise the `PATH` probe
loop. -/
def which_path_candidate (fs : String → Bool) (pathEnv : Option String)
    (name : String) : Option String :=
  if isDirectWhich name then
    if fs name then some name else none
  else
    match pathEnv with
    | none => none
    | some p => if p = "" then none else whichSearchLoop fs name (strtokColon p)

/-- The resolution rule exactly as the specification words it: the name is
checked directly, with no search, precisely when it starts with `/` or
`./`; otherwise the search path is split on `:` and each directory is
tried in order, the first executable match winning; an empty or unset
search path yields not-found immediately. -/
def resolveSpec (fs : String → Bool) (pathEnv : Option String)
    (name : String) : Option String :=
  if name.data.take 1 = ['/'] ∨ name.data.take 2 = ['.', '/'] then
    if fs name then some name else none
  else
    match pathEnv with
    | none => none
    | some p =>
      if p = "" then none
      else
        ((splitOnCh ':' p.data).filter (· ≠ [])).findSome?
          (fun d =>
            let cand := String.mk d ++ "/" ++ name
            if fs cand then some cand else none)

/-- The same rule with the direct-check condition `wsh_which` actually
uses: the first character is `.` or `/`. -/
def resolveSpecDot (fs : String → Bool) (pathEnv : Option String)
    (name : String) : Option String :=
  if name.data.take 1 = ['/'] ∨ name.data.take 1 = ['.'] then
    if fs name then some name else none
  else
    match pathEnv with
    | none => none
    | some p =>
      if p = "" then none
      else
        ((splitOnCh ':' p.data).filter (· ≠ [])).findSome?
          (fun d =>
            let cand := String.mk d ++ "/" ++ name
            if fs cand then some cand else none)

/-! ### Builtins -/

/-- The static `builtins[]` table's names. -/
def builtinNames : List String :=
  ["exit", "alias", "unalias", "which", "path", "cd", "history"]

/-- Membership in the builtin table. -/
def isBuiltin (s : String) : Bool :=
  builtinNames.contains s

/-- A site of undefined behaviour present in the C source. -/
inductive CrashKind where
  | nullCmd : CrashKind
  | aliasArgv2 : CrashKind
  | historyUnderflow : CrashKind
deriving Repr, DecidableEq

/-- Result of running a builtin handler: its return code together with the
updated state, or undefined behaviour. -/
inductive BuiltinOut where
  | ret : Nat → ShellState → BuiltinOut
  | crash : CrashKind → BuiltinOut
deriving Repr, DecidableEq

/-- `da_print` (dynamic_array.c, lines 133-144): prints entries
`0 .. size-2`, i.e. everything but the most recent append.  With an empty
array the `size_t` bound `da->size - 1` underflows to `SIZE_MAX` and the
loop reads far out of bounds: that is the `none` case. -/
def da_print (l : List String) : Option (List String) :=
  match l with
  | [] => none
  | _ => some l.dropLast

/-- Numeric run of `strtol(arg, &endptr, 10)` digits. -/
def parseDigits (l : List Char) : Option Nat :=
  match l with
  | [] => none
  | _ =>
    if l.all (fun c => '0' ≤ c ∧ c ≤ '9') then
      some (l.foldl (fun a c => a * 10 + (c.toNat - 48)) 0)
    else none

/-- `strtol` followed by `wsh_history`'s `endptr == arg || *endptr != '\0'`
validation: optional leading blanks, an optional sign, then digits that
must reach the end of the string.  (Overflow clamping is not modelled;
history sizes stay far below `LONG_MAX`.) -/
def strtolFull (s : String) : Option Int :=
  match s.data.dropWhile (fun c => c = ' ' ∨ c = '\t') with
  | '+' :: rest => (parseDigits rest).map (Int.ofNat ·)
  | '-' :: rest => (parseDigits rest).map (fun n => -(Int.ofNat n))
  | rest => (parseDigits rest).map (Int.ofNat ·)

/-- `wsh_history` (lines 56-94). -/
def wsh_history_b (st : ShellState) (argv : List String) : BuiltinOut :=
  let argc := argv.length
  if argc > 2 then .ret 1 st
  else if argc = 1 then
    match da_print st.history with
    | none => .crash .historyUnderflow
    | some _ => .ret 0 st
  else
    match strtolFull ((argv.get? 1).getD "") with
    | none => .ret 1 st
    | some n =>
      if n ≤ 0 then .ret 1 st
      else if n > (st.history.length : Int) then .ret 1 st
      else .ret 0 st

/-- `wsh_alias` (lines 99-129).  With `argc = 2` the guard
`strcmp(argv[2], "=")` reads the NULL sentinel `argv[argc]`: undefined
behaviour. -/
def wsh_alias_b (st : ShellState) (argv : List String) : BuiltinOut :=
  let argc := argv.length
  if argc = 1 then .ret 0 st
  else if argc > 4 then .ret 1 st
  else
    match argv.get? 2 with
    | none => .crash .aliasArgv2
    | some a2 =>
      if ¬(a2 = "=") then .ret 1 st
      else
        let name := (argv.get? 1).getD ""
        let command := if argc = 4 then (argv.get? 3).getD "" else " "
        if name = "" then .ret 1 st
        else .ret 0 { st with aliases := hm_put st.aliases name command }

/-- `wsh_unalias` (lines 134-144). -/
def wsh_unalias_b (st : ShellState) (argv : List String) : BuiltinOut :=
  if ¬(argv.length = 2) then .ret 1 st
  else .ret 0 { st with aliases := hm_delete st.aliases ((argv.get? 1).getD "") }

/-- `wsh_which` (lines 149-244): alias, then builtin, then path candidate;
a missing candidate is reported and the handler returns failure. -/
def wsh_which_b (env : Env) (st : ShellState) (argv : List String) : BuiltinOut :=
  if ¬(argv.length = 2) then .ret 1 st
  else
    let name := (argv.get? 1).getD ""
    match hm_get st.aliases name with
    | some _ => .ret 0 st
    | none =>
      if isBuiltin name then .ret 0 st
      else
        match which_path_candidate env.fs st.pathEnv name with
        | some _ => .ret 0 st
        | none => .ret 1 st

/-- `wsh_path` (lines 249-276); `setenv` failure is not modelled. -/
def wsh_path_b (st : ShellState) (argv : List String) : BuiltinOut :=
  if argv.length > 2 then .ret 1 st
  else if argv.length = 1 then .ret 0 st
  else .ret 0 { st with pathEnv := some ((argv.get? 1).getD "") }

/-- `wsh_cd` (lines 281-312). -/
def wsh_cd_b (env : Env) (st : ShellState) (argv : List String) : BuiltinOut :=
  if argv.length > 2 then .ret 1 st
  else if argv.length = 1 then
    match env.home with
    | none => .ret 1 st
    | some h => if env.chdirOk h then .ret 0 st else .ret 1 st
  else if env.chdirOk ((argv.get? 1).getD "") then .ret 0 st
  else .ret 1 st

/-- The builtin table lookup of the dispatcher (`builtins[i].func`);
`exit` is intercepted earlier and never dispatched through here. -/
def runBuiltin (env : Env) (st : ShellState) (name : String)
    (argv : List String) : BuiltinOut :=
  if name = "alias" then wsh_alias_b st argv
  else if name = "unalias" then wsh_unalias_b st argv
  else if name = "which" then wsh_which_b env st argv
  else if name = "path" then wsh_path_b st argv
  else if name = "cd" then wsh_cd_b env st argv
  else if name = "history" then wsh_history_b st argv
  else .ret 1 st

/-! ### External commands and pipelines -/

/-- Something the dispatcher visibly executed while handling one line. -/
inductive Act where
  | builtin : String → List String → Act
  | external : List String → Act
  | pipeline : List String → Act
deriving Repr, DecidableEq

/-- `execute_external_command` (lines 382-456): resolve, fork, wait.
Returns the function's return value (`EXIT_SUCCESS` when the child was
spawned and reaped, even if it exited non-zero), the updated state, and
the spawn, if any. -/
def execute_external_command (env : Env) (st : ShellState)
    (argv : List String) : Nat × ShellState × List Act :=
  let name := argv.headD ""
  if isDirectFind name then
    if env.fs name then
      if ¬env.forkOk then (1, st, [])
      else
        match env.extWait name argv with
        | .err => (1, st, [.external argv])
        | .exited c => (0, { st with rc := c }, [.external argv])
        | .signaled => (0, { st with rc := 1 }, [.external argv])
    else (1, { st with rc := 1 }, [])
  else
    match find_executable_path env.fs st.pathEnv name with
    | none => (1, { st with rc := 1 }, [])
    | some full =>
      if ¬env.forkOk then (1, st, [])
      else
        match env.extWait full argv with
        | .err => (1, st, [.external argv])
        | .exited c => (0, { st with rc := c }, [.external argv])
        | .signaled => (0, { st with rc := 1 }, [.external argv])

/-- The wait/aggregate phase of `execute_pipeline` (lines 933-963): first
`waitpid(pid_last)` decides `rc`; then the earlier children are waited,
where only a failing `waitpid` call flips `all_success`.  Returns
`(rc, all_success)`. -/
def collectPipeline (last : WaitRes) (earlier : List WaitRes) : Nat × Nat :=
  let first : Nat × Nat :=
    match last with
    | .err => (1, 1)
    | .exited c => (c, if c = 0 then 0 else 1)
    | .signaled => (1, 1)
  (first.1, if earlier.any (·.isErr) then 1 else first.2)

/-- `execute_pipeline` as the dispatcher sees it, with pipe and fork
creation succeeding and each child's wait outcome supplied by the
environment. -/
def execute_pipeline_m (env : Env) (st : ShellState)
    (segs : List String) : Nat × ShellState :=
  match segs.getLast? with
  | none => (0, st)
  | some last =>
    let p := collectPipeline (env.segWait last) (segs.dropLast.map env.segWait)
    (p.2, { st with rc := p.1 })

/-! ### The dispatcher, `execute_command` -/

/-- Outcome of `execute_command` on one line. -/
structure CmdResult where
  result : Nat
  st : ShellState
  acts : List Act
deriving Repr, DecidableEq

/-- `execute_command` either returns (`ok`), terminates the whole process
through `clean_exit` (`exitsh`, carrying the process exit code), or runs
into undefined behaviour (`crash`). -/
inductive CmdOut where
  | ok : CmdResult → CmdOut
  | exitsh : Nat → CmdOut
  | crash : CrashKind → CmdOut
deriving Repr, DecidableEq

/-- The history append at the top of `execute_command` (lines 463-477). -/
def appendHistory (st : ShellState) (cmdline : String) : ShellState :=
  if hasNonWs cmdline then { st with history := st.history ++ [cmdline] }
  else st

/-- `strcpy(alias); strcat(" "); strcat(argv[k])` for `k = 1 ..`:
the synthesized alias-substituted command line. -/
def joinSp (a : String) (rest : List String) : String :=
  rest.foldl (fun acc x => acc ++ " " ++ x) a

/-- The segment-splitting loop of the pipeline branch (lines 498-551),
bounded by `MAX_ARGS`.  `chunks` is the `|`-split of the line; the
accumulator `acc` is `num_segments`.  A mid-line chunk that is empty after
skipping spaces, or a final chunk that is empty or a bare newline after
skipping spaces, is the `EMPTY_PIPE_SEGMENT` error; chunks beyond the
bound are silently dropped. -/
def splitSegs (maxArgs acc : Nat) : List (List Char) → Except Unit (List String)
  | [] => .ok []
  | [last] =>
    if acc < maxArgs then
      match last.dropWhile (· = ' ') with
      | [] => .error ()
      | '\n' :: _ => .error ()
      | _ => .ok [String.mk last]
    else .ok []
  | c :: rest =>
    if acc < maxArgs then
      if c.dropWhile (· = ' ') = [] then .error ()
      else (splitSegs maxArgs (acc + 1) rest).map (String.mk c :: ·)
    else .ok []

/-- Result of the pre-validation loop over pipeline segments (lines
553-633): the segments with alias substitutions applied, the abort path
(`EMPTY_PIPE_SEGMENT` / `CMD_NOT_FOUND`, both `wsh_warn` + failure), or
the NULL `strcmp` when an alias substitution re-parses to zero tokens. -/
inductive PipeVal where
  | ok : List String → PipeVal
  | abortErr : PipeVal
  | crash : CrashKind → PipeVal
deriving Repr, DecidableEq

/-- Head-token check of one pipeline segment: builtin, or resolvable
through `find_executable_path`. -/
def checkHead (env : Env) (st : ShellState) (h : String) : Bool :=
  isBuiltin h || (find_executable_path env.fs st.pathEnv h).isSome

/-- The pre-validation loop (lines 553-633). -/
def validateLoop (env : Env) (st : ShellState) : List String → PipeVal
  | [] => .ok []
  | seg :: rest =>
    match parseline seg with
    | none => .abortErr
    | some [] => .abortErr
    | some (h :: t) =>
      match hm_get st.aliases h with
      | some a =>
        let seg' := joinSp a t
        match parseline seg' with
        | none => .crash .nullCmd
        | some [] => .crash .nullCmd
        | some (h' :: _) =>
          if checkHead env st h' then
            match validateLoop env st rest with
            | .ok l => .ok (seg' :: l)
            | e => e
          else .abortErr
      | none =>
        if checkHead env st h then
          match validateLoop env st rest with
          | .ok l => .ok (seg :: l)
          | e => e
        else .abortErr

/-- The pipeline branch of `execute_command` (lines 496-639). -/
def pipelinePath (env : Env) (maxArgs : Nat) (st : ShellState)
    (cmdline : String) : CmdOut :=
  match splitSegs maxArgs 0 (splitOnCh '|' cmdline.data) with
  | .error _ => .ok { result := 1, st := { st with rc := 1 }, acts := [] }
  | .ok segs =>
    match validateLoop env st segs with
    | .abortErr => .ok { result := 1, st := { st with rc := 1 }, acts := [] }
    | .crash k => .crash k
    | .ok segs' =>
      let p := execute_pipeline_m env st segs'
      .ok { result := p.1, st := p.2, acts := [.pipeline segs'] }

/-- Dispatch of a fully alias-resolved argument vector (lines 695-732):
the `exit` special case, the builtin loop, or an external command. -/
def dispatchCmd (env : Env) (st : ShellState) (cmd : String)
    (argv : List String) : CmdOut :=
  if cmd = "exit" then
    if argv.length > 1 then .ok { result := 1, st := { st with rc := 1 }, acts := [] }
    else .exitsh st.rc
  else if isBuiltin cmd then
    match runBuiltin env st cmd argv with
    | .crash k => .crash k
    | .ret code st' =>
      .ok { result := if code = 0 then 0 else 1
            st := { st' with rc := code }
            acts := [.builtin cmd argv] }
  else
    let p := execute_external_command env st argv
    .ok { result := p.1, st := p.2.1, acts := p.2.2 }

/-- The single-command branch of `execute_command` (lines 641-738). -/
def singlePath (env : Env) (st : ShellState) (cmdline : String) : CmdOut :=
  match parseline cmdline with
  | none => .ok { result := 0, st := { st with rc := 1 }, acts := [] }
  | some [] => .ok { result := 0, st := st, acts := [] }
  | some (h :: t) =>
    match hm_get st.aliases h with
    | some a =>
      match parseline (joinSp a t) with
      | none => .ok { result := 0, st := { st with rc := 1 }, acts := [] }
      | some [] => .ok { result := 0, st := st, acts := [] }
      | some (h' :: t') => dispatchCmd env st h' (h' :: t')
    | none => dispatchCmd env st h (h :: t)

/-- `execute_command` (lines 461-741). -/
def execute_command (env : Env) (maxArgs : Nat) (st : ShellState)
    (cmdline : String) : CmdOut :=
  if hasPipe cmdline then pipelinePath env maxArgs (appendHistory st cmdline) cmdline
  else singlePath env (appendHistory st cmdline) cmdline

/-! ### Interactive and batch drivers -/

/-- Termination of one whole run of the interpreter. -/
inductive RunOut where
  | exited : Nat → RunOut
  | crash : CrashKind → RunOut
deriving Repr, DecidableEq

/-- `interactive_main` (lines 1009-1031) over a finite list of input
lines; end of input performs `clean_exit(rc)`. -/
def interactiveRun (env : Env) (maxArgs : Nat) (st : ShellState) :
    List String → RunOut
  | [] => .exited st.rc
  | l :: ls =>
    match execute_command env maxArgs st l with
    | .ok r => interactiveRun env maxArgs r.st ls
    | .exitsh c => .exited c
    | .crash k => .crash k

/-- `batch_main` (lines 1040-1063) followed by `main`'s
`rc = batch_main(...); return rc`: the process exit code is the return
value of the last `execute_command`, initially `EXIT_SUCCESS`. -/
def batchRun (env : Env) (maxArgs : Nat) (st : ShellState) (result : Nat) :
    List String → RunOut
  | [] => .exited result
  | l :: ls =>
    match execute_command env maxArgs st l with
    | .ok r => batchRun env maxArgs r.st r.result ls
    | .exitsh c => .exited c
    | .crash k => .crash k

/-! ### The spawn/kill/wait event trace of `execute_pipeline` -/

/-- Observable process-management events of `execute_pipeline`
(lines 866-964). -/
inductive PEv where
  | spawned : Nat → PEv
  | killed : Nat → PEv
  | waited : Nat → PEv
deriving Repr, DecidableEq

/-- `for (j = 0; j < i; j++) kill(pids[j], SIGTERM)`. -/
def killAll (i : Nat) : List PEv :=
  (List.range i).map .killed

/-- The spawn loop of `execute_pipeline` (lines 872-931).  `i` is the
current segment index, the second argument the number of non-final
segments still to process (`n - 1 - i`): while it is positive a pipe is
created and a child forked; at zero the final child is forked with no new
pipe.  On a failing `pipe` or `fork` the already-started siblings
`0 .. i-1` are signalled and the loop reports failure. -/
def spawnLoop (pipeOk forkOk : Nat → Bool) (i : Nat) : Nat → List PEv × Bool
  | 0 =>
    if forkOk i then ([.spawned i], true) else (killAll i, false)
  | k + 1 =>
    if ¬pipeOk i then (killAll i, false)
    else if ¬forkOk i then (killAll i, false)
    else
      (.spawned i :: (spawnLoop pipeOk forkOk (i + 1) k).1,
        (spawnLoop pipeOk forkOk (i + 1) k).2)

/-- The full event trace of `execute_pipeline` on `n` segments: after a
successful spawn phase the parent waits once for `pid_last` and then once
for each of `pids[0] .. pids[n-2]`; after a failed spawn phase it returns
without waiting for anyone. -/
def execute_pipeline_ev (pipeOk forkOk : Nat → Bool) (n : Nat) : List PEv :=
  if (spawnLoop pipeOk forkOk 0 (n - 1)).2 then
    (spawnLoop pipeOk forkOk 0 (n - 1)).1 ++
      .waited (n - 1) :: (List.range (n - 1)).map .waited
  else (spawnLoop pipeOk forkOk 0 (n - 1)).1

/-! ### Concrete fixtures used by the claim theorems -/

/-- A line of `n` one-character tokens: `"a a ... a "`. -/
def tokRep : Nat → List Char
  | 0 => []
  | n + 1 => 'a' :: ' ' :: tokRep n

/-- Environment in which nothing is executable and every child succeeds;
used where the filesystem is irrelevant. -/
def envC : Env :=
  { fs := fun _ => false
    home := none
    chdirOk := fun _ => false
    forkOk := true
    extWait := fun _ _ => .exited 0
    segWait := fun _ => .exited 0 }

/-- Environment with a single executable `/bin/fls` whose run exits with
status 1. -/
def envFail : Env :=
  { fs := fun s => s = "/bin/fls"
    home := none
    chdirOk := fun _ => false
    forkOk := true
    extWait := fun _ _ => .exited 1
    segWait := fun _ => .exited 0 }

/-- Environment with a single executable `/bin/echo` whose run succeeds. -/
def envEcho : Env :=
  { fs := fun s => s = "/bin/echo"
    home := none
    chdirOk := fun _ => false
    forkOk := true
    extWait := fun _ _ => .exited 0
    segWait := fun _ => .exited 0 }

/-- The `rc`/`all_success` pair the C code derives from the last child's
wait outcome alone. -/
def rcOfWait : WaitRes → Nat
  | .err => 1
  | .exited c => c
  | .signaled => 1

/-- Success/failure as reported for a pipeline whose last child's wait
outcome is the given one. -/
def reportOfWait : WaitRes → Nat
  | .exited 0 => 0
  | _ => 1

/-- The invariant behind the history builtin's safety: an alias can only
have been defined by a line that itself was recorded, so a non-empty
alias table forces a non-empty history. -/
def HistInv (st : ShellState) : Prop :=
  st.aliases = [] ∨ st.history ≠ []

/-- Projection of a returned `execute_command` outcome. -/
def okResult : CmdOut → Option CmdResult
  | .ok r => some r
  | _ => none

/-- Outcome of dispatching `fls\n` (the failing external command) from the
initial state under `envFail`: the child's exit status 1 is recorded in
`rc`, but the dispatcher's return value is `EXIT_SUCCESS`. -/
def rFail : CmdResult :=
  { result := 0
    st := { rc := 1, aliases := [], history := ["fls\n"], pathEnv := some "/bin:/usr/bin" }
    acts := [.external ["fls"]] }

/-- State after the rejected definition line `alias x = echo hi`. -/
def stBadAlias : ShellState :=
  { rc := 1, aliases := [], history := ["alias x = echo hi\n"], pathEnv := some "/bin:/usr/bin" }

/-- State holding the alias `x -> echo hi`. -/
def stEcho : ShellState :=
  { rc := 0, aliases := [("x", "echo hi")], history := [], pathEnv := some "/bin:/usr/bin" }

/-- State after the definition line `alias <TAB> = history`. -/
def stTab : ShellState :=
  { rc := 0, aliases := [("\t", "history")], history := ["alias \t = history\n"],
    pathEnv := some "/bin:/usr/bin" }

/-- Outcome of dispatching `history\n` from the initial state. -/
def rHist : CmdResult :=
  { result := 0
    st := { rc := 0, aliases := [], history := ["history\n"], pathEnv := some "/bin:/usr/bin" }
    acts := [.builtin "history" ["history"]] }

/-- Outcome of dispatching the unterminated-quote line `echo 'abc` from the
initial state. -/
def rQuote : CmdResult :=
  { result := 0
    st := { rc := 1, aliases := [], history := ["echo 'abc\n"], pathEnv := some "/bin:/usr/bin" }
    acts := [] }

end Wsh

namespace Wsh

/-! ## State-shape lemmas -/

/-- The history append changes nothing but the history. -/
theorem appendHistory_aliases (st : ShellState) (l : String) :
    (appendHistory st l).aliases = st.aliases := by
  unfold appendHistory
  split <;> rfl

/-- The history append changes nothing but the history. -/
theorem appendHistory_pathEnv (st : ShellState) (l : String) :
    (appendHistory st l).pathEnv = st.pathEnv := by
  unfold appendHistory
  split <;> rfl

/-- The history append changes nothing but the history. -/
theorem appendHistory_rc (st : ShellState) (l : String) :
    (appendHistory st l).rc = st.rc := by
  unfold appendHistory
  split <;> rfl

/-- The history only grows across the append. -/
theorem appendHistory_history_ne (st : ShellState) (l : String)
    (h : st.history ≠ []) : (appendHistory st l).history ≠ [] := by
  unfold appendHistory
  split
  · simp
  · exact h

/-- A recorded line makes the history non-empty. -/
theorem appendHistory_of_nonWs (st : ShellState) (l : String)
    (h : hasNonWs l = true) : (appendHistory st l).history = st.history ++ [l] := by
  unfold appendHistory
  rw [if_pos h]

/-! ## General-purpose lemmas -/

/-- The last element of a list is a member. -/
theorem mem_of_getLast?_eq {α : Type} {l : List α} {a : α}
    (h : l.getLast? = some a) : a ∈ l := by
  have hm := List.mem_getLast?_eq_getLast (l := l) (x := a) (by simp [Option.mem_def, h])
  rcases hm with ⟨hne, rfl⟩
  exact List.getLast_mem hne

/-- Membership in `List.range'` with unit step. -/
theorem mem_range'_iff {a b i : Nat} : i ∈ List.range' a b ↔ a ≤ i ∧ i < a + b := by
  rw [List.mem_range']
  constructor
  · rintro ⟨j, hj, rfl⟩; omega
  · rintro ⟨h1, h2⟩; exact ⟨i - a, by omega, by omega⟩

/-- Count of an image element in the map of an injective function over a
duplicate-free list. -/
theorem count_map_inj {α β : Type} [DecidableEq α] [DecidableEq β]
    (f : α → β) (hf : Function.Injective f) (l : List α) (hl : l.Nodup) (x : α) :
    (l.map f).count (f x) = if x ∈ l then 1 else 0 := by
  by_cases h : x ∈ l
  · rw [if_pos h]
    exact List.count_eq_one_of_mem (hl.map hf) (List.mem_map_of_mem f h)
  · rw [if_neg h]
    rw [List.count_eq_zero]
    intro hc
    rcases List.mem_map.1 hc with ⟨a, ha, hfa⟩
    exact h (hf hfa ▸ ha)

/-- A value outside the range of `f` is never counted in a map of `f`. -/
theorem count_map_ne {α β : Type} [DecidableEq β]
    (f : α → β) (l : List α) (y : β) (hy : ∀ a, f a ≠ y) :
    (l.map f).count y = 0 := by
  rw [List.count_eq_zero]
  intro hc
  rcases List.mem_map.1 hc with ⟨a, _, hfa⟩
  exact hy a hfa

/-- `hm_get` after `hm_put` of the same key. -/
theorem hm_get_put_self (m : List (String × String)) (k v : String) :
    hm_get (hm_put m k v) k = some v := by
  induction m with
  | nil => simp [hm_put, hm_get]
  | cons kv rest ih =>
    by_cases h : kv.1 = k
    · simp [hm_put, hm_get, h]
    · simp [hm_put, hm_get, h, ih]

/-- A successful `hm_get` needs a non-empty table. -/
theorem hm_get_ne_nil {m : List (String × String)} {k v : String}
    (h : hm_get m k = some v) : m ≠ [] := by
  intro hm
  subst hm
  simp [hm_get] at h

/-! ## C5 — the tokenizer enforces no argument bound (code bug) -/

/-- Every character of `tokRep n` is `a` or a space. -/
theorem tokRep_chars : ∀ (n : Nat) (c : Char), c ∈ tokRep n → c = 'a' ∨ c = ' ' := by
  intro n
  induction n with
  | zero => intro c hc; simp [tokRep] at hc
  | succ n ih =>
    intro c hc
    simp only [tokRep, List.mem_cons] at hc
    rcases hc with h | h | h
    · exact Or.inl h
    · exact Or.inr h
    · exact ih c h

/-- `tokRep n` never ends in a newline, so the tokenizer preamble just
appends a space. -/
theorem prepBuf_tokRep (n : Nat) : prepBuf (tokRep n) = tokRep n ++ [' '] := by
  unfold prepBuf stripNl
  rw [if_neg]
  intro h
  have := tokRep_chars n '\n' (mem_of_getLast?_eq h)
  simp at this

/-- Scanning `n` one-character tokens yields exactly `n` arguments. -/
theorem scan_tokRep : ∀ n : Nat, scan .sep (tokRep n ++ [' ']) = some (List.replicate n ['a']) := by
  intro n
  induction n with
  | zero => rfl
  | succ n ih => simp [tokRep, scan, ih, List.replicate]

/-- C5: the claim states that the tokenizer's argument count is bounded by
the fixed maximum argument bound and that a longer line is rejected as a
parse error.  The code has no such check: for every candidate bound `B`,
the line of `B + 1` one-character tokens parses without any error to
`B + 1` arguments — `parseline_no_subst` then writes `argv[count]` for
every one of them, past the end of the callers' `MAX_ARGS + 1` arrays. -/
theorem C5_tokenizer_unbounded (B : Nat) :
    (parseline (String.mk (tokRep (B + 1)))).map List.length = some (B + 1) := by
  unfold parseline
  have hd : (String.mk (tokRep (B + 1))).data = tokRep (B + 1) := rfl
  rw [hd, prepBuf_tokRep, scan_tokRep]
  simp

/-! ## C2 — pipeline validation crash on whitespace alias (code bug) -/

/-- C2: the claim states that a pipeline with an empty segment or an
unresolvable head is always aborted before any process is spawned, with an
error reported.  The single-command path guards the re-parse after alias
substitution with `if (argc == 0)`, but the pipeline validation loop does
not: after `alias x =` (storing the expansion `" "`), the line
`x | echo hi` re-parses segment `x` to zero tokens, `command_name =
temp_argv[0]` becomes the NULL sentinel, and the builtin check calls
`strcmp(NULL, "exit")` — undefined behaviour instead of the claimed clean
abort. -/
theorem C2_pipeline_null_alias_crash :
    interactiveRun envC 128 initState ["alias x =\n", "x | echo hi\n"] =
      RunOut.crash CrashKind.nullCmd := by decide

/-! ## C9 — `alias NAME` dereferences the NULL sentinel (code bug) -/

/-- C9: the claim states that `alias x` (argc = 2) produces a usage error
without reading past the argument vector.  The guard
`argc > 4 || strcmp(argv[2], "=") != 0` short-circuits into the `strcmp`
with `argv[2]` being the NULL sentinel written by `parseline_no_subst`:
the dispatcher crashes instead. -/
theorem C9_alias_argv2_nullderef :
    execute_command envC 128 initState "alias x\n" =
      CmdOut.crash CrashKind.aliasArgv2 := by decide

/-! ## C3 — a pipeline reports the last segment's status (confirmed) -/

/-- C3: for every executed pipeline the recorded return code and the
reported status are computed from the last segment's wait outcome alone —
whatever the earlier segments' exit statuses are — and a failing `waitpid`
call (on the last child or on any earlier child) is reported as failure. -/
theorem C3_pipeline_last_status (last : WaitRes) (earlier : List WaitRes) :
    ((∀ r ∈ earlier, r ≠ WaitRes.err) →
        collectPipeline last earlier = (rcOfWait last, reportOfWait last)) ∧
    ((last = WaitRes.err ∨ WaitRes.err ∈ earlier) →
        (collectPipeline last earlier).2 = 1) := by
  constructor
  · intro h
    have ha : earlier.any (·.isErr) = false := by
      rw [List.any_eq_false]
      intro r hr
      cases r with
      | err => exact absurd rfl (h _ hr)
      | exited c => simp [WaitRes.isErr]
      | signaled => simp [WaitRes.isErr]
    cases last with
    | err => simp [collectPipeline, ha, rcOfWait, reportOfWait]
    | exited c =>
      cases c with
      | zero => simp [collectPipeline, ha, rcOfWait, reportOfWait]
      | succ n => simp [collectPipeline, ha, rcOfWait, reportOfWait]
    | signaled => simp [collectPipeline, ha, rcOfWait, reportOfWait]
  · intro h
    rcases h with h | h
    · subst h
      unfold collectPipeline
      dsimp only
      split <;> rfl
    · have ha : earlier.any (·.isErr) = true :=
        List.any_eq_true.mpr ⟨_, h, by simp [WaitRes.isErr]⟩
      simp [collectPipeline, ha]

/-- Witness for C3 at a concrete pipeline: last child exits 5, the single
earlier child exits 0; the recorded code is 5 and the report is failure. -/
theorem C3_pipeline_last_status_witness :
    collectPipeline (WaitRes.exited 5) [WaitRes.exited 0, WaitRes.signaled] = (5, 1) :=
  (C3_pipeline_last_status (WaitRes.exited 5) [WaitRes.exited 0, WaitRes.signaled]).1
    (by decide)

/-! ## C4 — every spawned child waited exactly once (corrected) -/

/-- When every `pipe` and `fork` from index `i` on succeeds, the spawn
loop starts children `i .. i + k` in order and reports success. -/
theorem spawnLoop_ok (pipeOk forkOk : Nat → Bool) :
    ∀ (k i : Nat), (∀ j, i ≤ j → j ≤ i + k → forkOk j = true) →
      (∀ j, i ≤ j → j < i + k → pipeOk j = true) →
      spawnLoop pipeOk forkOk i k = ((List.range' i (k + 1)).map PEv.spawned, true) := by
  intro k
  induction k with
  | zero =>
    intro i hf _
    have h1 : forkOk i = true := hf i le_rfl (by omega)
    simp [spawnLoop, h1, List.range']
  | succ k ih =>
    intro i hf hp
    have h1 : pipeOk i = true := hp i le_rfl (by omega)
    have h2 : forkOk i = true := hf i le_rfl (by omega)
    have h3 := ih (i + 1) (fun j hj hj2 => hf j (by omega) (by omega))
      (fun j hj hj2 => hp j (by omega) (by omega))
    simp [spawnLoop, h1, h2, h3, List.range']

/-- When the spawn loop fails, the events are: children `i .. j-1` were
started, then every already-started child `0 .. j-1` received `SIGTERM` —
and nothing else; in particular, nobody was waited on. -/
theorem spawnLoop_fail (pipeOk forkOk : Nat → Bool) :
    ∀ (k i : Nat) (evs : List PEv), spawnLoop pipeOk forkOk i k = (evs, false) →
      ∃ j, i ≤ j ∧ evs = (List.range' i (j - i)).map PEv.spawned ++ killAll j := by
  intro k
  induction k with
  | zero =>
    intro i evs h
    by_cases hf : forkOk i = true
    · simp [spawnLoop, hf] at h
    · simp [spawnLoop, hf] at h
      exact ⟨i, le_rfl, by simp [← h, List.range']⟩
  | succ k ih =>
    intro i evs h
    by_cases h1 : pipeOk i = true
    · by_cases h2 : forkOk i = true
      · rcases hsp : spawnLoop pipeOk forkOk (i + 1) k with ⟨evs', ok'⟩
        rw [spawnLoop, if_neg (by simp [h1]), if_neg (by simp [h2]), hsp] at h
        have hok' : ok' = false := congrArg Prod.snd h
        have hevs : evs = PEv.spawned i :: evs' := (congrArg Prod.fst h).symm
        obtain ⟨j, hij, hj⟩ := ih (i + 1) evs' (by rw [hsp, hok'])
        refine ⟨j, by omega, ?_⟩
        rw [hevs, hj]
        have hji : j - i = (j - (i + 1)) + 1 := by omega
        rw [hji, List.range'_succ, List.map_cons, List.cons_append]
      · simp [spawnLoop, h1, h2] at h
        exact ⟨i, le_rfl, by simp [← h, List.range']⟩
    · simp [spawnLoop, h1] at h
      exact ⟨i, le_rfl, by simp [← h, List.range']⟩

/-- C4 (amended): when every pipe and process creation succeeds, every
spawned child of an `n`-segment pipeline is spawned once and waited on
exactly once.  But when a `pipe` or `fork` call fails partway through, the
already-spawned siblings each receive one termination signal and **none of
them is ever waited on** — they are signalled, not reaped, so the claimed
"waited on exactly once, regardless of pipeline success or failure" holds
only on the success path. -/
theorem C4_wait_exactly_once_corrected :
    (∀ (pipeOk forkOk : Nat → Bool) (n : Nat), 1 ≤ n →
        (∀ i, i < n → forkOk i = true) → (∀ i, i + 1 < n → pipeOk i = true) →
        ∀ i, i < n →
          (execute_pipeline_ev pipeOk forkOk n).count (PEv.spawned i) = 1 ∧
          (execute_pipeline_ev pipeOk forkOk n).count (PEv.waited i) = 1) ∧
    (∀ (pipeOk forkOk : Nat → Bool) (n : Nat),
        (spawnLoop pipeOk forkOk 0 (n - 1)).2 = false →
        ∀ i, (execute_pipeline_ev pipeOk forkOk n).count (PEv.waited i) = 0 ∧
          (execute_pipeline_ev pipeOk forkOk n).count (PEv.killed i) =
            (execute_pipeline_ev pipeOk forkOk n).count (PEv.spawned i)) := by
  constructor
  · intro pipeOk forkOk n hn hf hp i hi
    have hsl : spawnLoop pipeOk forkOk 0 (n - 1) =
        ((List.range' 0 n).map PEv.spawned, true) := by
      have := spawnLoop_ok pipeOk forkOk (n - 1) 0
        (fun j _ hj2 => hf j (by omega)) (fun j _ hj2 => hp j (by omega))
      rwa [show n - 1 + 1 = n by omega] at this
    have hev : execute_pipeline_ev pipeOk forkOk n =
        (List.range' 0 n).map PEv.spawned ++
          PEv.waited (n - 1) :: (List.range (n - 1)).map PEv.waited := by
      unfold execute_pipeline_ev
      rw [hsl]
      simp
    have hwshape : PEv.waited (n - 1) :: (List.range (n - 1)).map PEv.waited =
        ((n - 1) :: List.range (n - 1)).map PEv.waited := by simp
    have hspawned_inj : Function.Injective PEv.spawned := by
      intro a b hab; injection hab
    have hwaited_inj : Function.Injective PEv.waited := by
      intro a b hab; injection hab
    have hnodup_r : (List.range' 0 n).Nodup := List.nodup_range' 0 n
    have hnodup_w : ((n - 1) :: List.range (n - 1)).Nodup := by
      refine List.nodup_cons.2 ⟨?_, List.nodup_range _⟩
      simp [List.mem_range]
    have hmem : i ∈ (n - 1) :: List.range (n - 1) := by
      rcases Nat.lt_or_ge i (n - 1) with hlt | hge
      · exact List.mem_cons_of_mem _ (List.mem_range.2 hlt)
      · have hieq : i = n - 1 := by omega
        simp [hieq]
    constructor
    · rw [hev, List.count_append, hwshape]
      rw [count_map_inj PEv.spawned hspawned_inj _ hnodup_r i]
      rw [count_map_ne PEv.waited _ _ (fun a h => by injection h)]
      rw [if_pos (mem_range'_iff.2 ⟨Nat.zero_le i, by omega⟩)]
    · rw [hev, List.count_append, hwshape]
      rw [count_map_ne PEv.spawned _ _ (fun a h => by injection h)]
      rw [count_map_inj PEv.waited hwaited_inj _ hnodup_w i]
      rw [if_pos hmem]
  · intro pipeOk forkOk n hfail i
    have hps : spawnLoop pipeOk forkOk 0 (n - 1) =
        ((spawnLoop pipeOk forkOk 0 (n - 1)).1, false) := by
      rw [← hfail]
    obtain ⟨j, _, hj⟩ := spawnLoop_fail pipeOk forkOk (n - 1) 0 _ hps
    have hev : execute_pipeline_ev pipeOk forkOk n =
        (List.range' 0 j).map PEv.spawned ++ killAll j := by
      unfold execute_pipeline_ev
      rw [hfail]
      simpa using hj
    have hspawned_inj : Function.Injective PEv.spawned := by
      intro a b hab; injection hab
    have hkilled_inj : Function.Injective PEv.killed := by
      intro a b hab; injection hab
    have hrange : List.range' 0 j = List.range j := (List.range_eq_range' j).symm
    constructor
    · rw [hev, List.count_append, killAll]
      rw [count_map_ne PEv.spawned _ _ (fun a h => by injection h)]
      rw [count_map_ne PEv.killed _ _ (fun a h => by injection h)]
    · rw [hev, List.count_append, List.count_append, killAll]
      rw [count_map_ne PEv.spawned _ (PEv.killed i) (fun a h => by injection h)]
      rw [count_map_ne PEv.killed _ (PEv.spawned i) (fun a h => by injection h)]
      rw [count_map_inj PEv.spawned hspawned_inj _ (List.nodup_range' 0 j) i]
      rw [count_map_inj PEv.killed hkilled_inj _ (List.nodup_range j) i]
      rw [hrange]
      simp

/-- Counterexample to C4 as stated: in a two-segment pipeline whose final
`fork` fails, child 0 was spawned but is waited on zero times, not exactly
once. -/
theorem C4_wait_cex :
    (execute_pipeline_ev (fun _ => true) (fun i => i == 0) 2).count (PEv.spawned 0) = 1 ∧
    (execute_pipeline_ev (fun _ => true) (fun i => i == 0) 2).count (PEv.waited 0) = 0 := by
  decide

/-- Witness for the amended C4 on a fully successful three-segment
pipeline: child 1 is spawned once and waited on once. -/
theorem C4_wait_exactly_once_witness :
    (execute_pipeline_ev (fun _ => true) (fun _ => true) 3).count (PEv.spawned 1) = 1 ∧
    (execute_pipeline_ev (fun _ => true) (fun _ => true) 3).count (PEv.waited 1) = 1 :=
  C4_wait_exactly_once_corrected.1 (fun _ => true) (fun _ => true) 3 (by decide)
    (fun _ _ => rfl) (fun _ _ => rfl) 1 (by decide)

/-! ## C7 — the unterminated-quote parse error (corrected) -/

/-- The tokenizer scan fails exactly when the open-quote scan reports an
unterminated token-opening quote. -/
theorem scan_eq_none_iff (l : List Char) :
    ∀ m : SMode, scan m l = none ↔ hasOpenQuote (qmodeOf m) l = true := by
  induction l with
  | nil => intro m; cases m <;> simp [scan, hasOpenQuote, qmodeOf]
  | cons c r ih =>
    intro m
    cases m with
    | sep =>
      by_cases h1 : c = ' '
      · simpa [scan, hasOpenQuote, qmodeOf, h1] using ih .sep
      · by_cases h2 : c = '\''
        · simpa [scan, hasOpenQuote, qmodeOf, h1, h2] using ih (.quoted [])
        · simpa [scan, hasOpenQuote, qmodeOf, h1, h2] using ih (.plain [c])
    | plain acc =>
      by_cases h1 : c = ' '
      · simpa [scan, hasOpenQuote, qmodeOf, h1, Option.map_eq_none'] using ih .sep
      · simpa [scan, hasOpenQuote, qmodeOf, h1] using ih (.plain (acc ++ [c]))
    | quoted acc =>
      by_cases h1 : c = '\''
      · simpa [scan, hasOpenQuote, qmodeOf, h1, Option.map_eq_none'] using ih .sep
      · simpa [scan, hasOpenQuote, qmodeOf, h1] using ih (.quoted (acc ++ [c]))

/-- Counterexample to C7 as stated: the line `echo a'bc` contains exactly
one single quote — necessarily without a matching closing quote — yet
tokenization does not abort: it returns two arguments, not zero, and the
command is executed. -/
theorem C7_quote_cex :
    (("echo a'bc\n").data.count '\'') = 1 ∧
    parseline "echo a'bc\n" = some ["echo", "a'bc"] := by
  exact ⟨by decide, by decide⟩

/-- C7 (amended): a single quote aborts tokenization exactly when it
*opens a token* (it stands at the start of the line, after a separating
space, or directly after a closing quote) and no quote follows; the parse
then yields the error vector (count 0), and on a pipe-free line the
dispatcher executes nothing and records failure.  A quote in the middle of
an unquoted token is an ordinary character. -/
theorem C7_unterminated_quote_corrected :
    (∀ s : String, parseline s = none ↔ hasOpenQuote QMode.sep (prepBuf s.data) = true) ∧
    (∀ (env : Env) (m : Nat) (st : ShellState) (s : String) (r : CmdResult),
      hasOpenQuote QMode.sep (prepBuf s.data) = true → hasPipe s = false →
      execute_command env m st s = CmdOut.ok r → r.acts = [] ∧ r.st.rc = 1) := by
  constructor
  · intro s
    unfold parseline
    rw [Option.map_eq_none']
    exact scan_eq_none_iff _ .sep
  · intro env m st s r hq hp hex
    have hn : parseline s = none := by
      unfold parseline
      rw [Option.map_eq_none']
      exact (scan_eq_none_iff _ .sep).2 hq
    unfold execute_command at hex
    rw [hp] at hex
    simp only [Bool.false_eq_true, if_false] at hex
    unfold singlePath at hex
    rw [hn] at hex
    have hr := (CmdOut.ok.injEq _ _).mp hex
    rw [← hr]
    exact ⟨rfl, rfl⟩

/-- Witness for the amended C7 on the spec's own example `echo 'abc`:
the open-quote scan fires, and the dispatcher returns with no action and
failure recorded. -/
theorem C7_unterminated_quote_witness :
    hasOpenQuote QMode.sep (prepBuf ("echo 'abc\n").data) = true ∧
    (rQuote.acts = [] ∧ rQuote.st.rc = 1) :=
  ⟨by decide,
    C7_unterminated_quote_corrected.2 envC 128 initState "echo 'abc\n" rQuote
      (by decide) (by decide) (by decide)⟩

/-! ## C8 — path resolution rules of the resolver and of `which` (corrected) -/

/-- The resolver's direct-check test, phrased on string prefixes as the
specification words it. -/
theorem isDirectFind_iff (name : String) :
    isDirectFind name = true ↔
      (name.data.take 1 = ['/'] ∨ name.data.take 2 = ['.', '/']) := by
  unfold isDirectFind
  match name.data with
  | [] => simp
  | [c1] =>
    by_cases h1 : c1 = '/'
    · simp [h1]
    · by_cases h2 : c1 = '.'
      · simp [h1, h2]
      · simp [h1, h2]
  | c1 :: c2 :: rest =>
    by_cases h1 : c1 = '/'
    · simp [h1]
    · by_cases h2 : c1 = '.'
      · by_cases h3 : c2 = '/'
        · simp [h1, h2, h3]
        · simp [h1, h2, h3]
      · simp [h1, h2]

/-- The `which` builtin's direct-check test, phrased on string prefixes. -/
theorem isDirectWhich_iff (name : String) :
    isDirectWhich name = true ↔
      (name.data.take 1 = ['/'] ∨ name.data.take 1 = ['.']) := by
  unfold isDirectWhich
  match name.data with
  | [] => simp
  | c1 :: rest =>
    by_cases h1 : c1 = '/'
    · simp [h1]
    · by_cases h2 : c1 = '.'
      · simp [h1, h2]
      · simp [h1, h2]

/-- The probe loop equals the first-match search the specification
describes. -/
theorem searchLoop_eq_findSome (fs : String → Bool) (name : String) :
    ∀ dirs : List (List Char),
      searchLoop fs name dirs =
        dirs.findSome? (fun d =>
          if fs (String.mk d ++ "/" ++ name) then some (String.mk d ++ "/" ++ name)
          else none) := by
  intro dirs
  induction dirs with
  | nil => rfl
  | cons d rest ih =>
    by_cases h : fs (String.mk d ++ "/" ++ name) = true
    · simp [searchLoop, List.findSome?_cons, h]
    · simp [searchLoop, List.findSome?_cons, h, ih]

/-- `wsh_which`'s copy of the probe loop behaves as the resolver's. -/
theorem whichSearchLoop_eq (fs : String → Bool) (name : String) :
    ∀ dirs : List (List Char), whichSearchLoop fs name dirs = searchLoop fs name dirs := by
  intro dirs
  induction dirs with
  | nil => rfl
  | cons d rest ih => simp [whichSearchLoop, searchLoop, ih]

/-- Counterexample to C8 as stated: for the name `.x` — first character
`.` but not prefixed by `./` — `find_executable_path` searches the path
and finds `/bin/.x`, while `wsh_which`'s candidate resolution checks `.x`
directly and reports nothing: `which` does **not** follow the same rule. -/
theorem C8_which_cex :
    find_executable_path (fun s => s = "/bin/.x") (some "/bin") ".x" = some "/bin/.x" ∧
    which_path_candidate (fun s => s = "/bin/.x") (some "/bin") ".x" = none := by
  exact ⟨by decide, by decide⟩

/-- C8 (amended): `find_executable_path` follows the specified rule
exactly — direct execute-permission check, with no search, precisely for
names starting with `/` or `./`, and otherwise an in-order first-match
probe of the `:`-split search path, an empty or unset path failing
immediately.  The `which` builtin's candidate resolution follows the same
rule **except** that its direct-check condition is broader: any name whose
first character is `.` or `/`. -/
theorem C8_path_resolution_corrected :
    (∀ (fs : String → Bool) (pathEnv : Option String) (name : String),
        find_executable_path fs pathEnv name = resolveSpec fs pathEnv name) ∧
    (∀ (fs : String → Bool) (pathEnv : Option String) (name : String),
        which_path_candidate fs pathEnv name = resolveSpecDot fs pathEnv name) := by
  constructor
  · intro fs pathEnv name
    unfold find_executable_path resolveSpec
    by_cases h : isDirectFind name = true
    · rw [if_pos h, if_pos ((isDirectFind_iff name).1 h)]
    · rw [if_neg h, if_neg (fun hc => h ((isDirectFind_iff name).2 hc))]
      cases pathEnv with
      | none => rfl
      | some p =>
        by_cases hp : p = ""
        · simp [hp]
        · simp only [if_neg hp]
          exact searchLoop_eq_findSome fs name (strtokColon p)
  · intro fs pathEnv name
    unfold which_path_candidate resolveSpecDot
    by_cases h : isDirectWhich name = true
    · rw [if_pos h, if_pos ((isDirectWhich_iff name).1 h)]
    · rw [if_neg h, if_neg (fun hc => h ((isDirectWhich_iff name).2 hc))]
      cases pathEnv with
      | none => rfl
      | some p =>
        by_cases hp : p = ""
        · simp [hp]
        · simp only [if_neg hp]
          rw [whichSearchLoop_eq]
          exact searchLoop_eq_findSome fs name (strtokColon p)

/-! ## C6 — alias definition and expansion (corrected) -/

/-- Counterexample to C6 as stated: the definition line `alias x = echo hi`
tokenizes to five arguments, so `wsh_alias`'s `argc > 4` guard rejects it
as a usage error — no alias is stored — and the later invocation `x there`
is dispatched as an unknown external command and executes nothing, instead
of `echo hi there`. -/
theorem C6_alias_cex :
    execute_command envC 128 initState "alias x = echo hi\n" =
      CmdOut.ok { result := 1, st := stBadAlias,
                  acts := [Act.builtin "alias" ["alias", "x", "=", "echo", "hi"]] } ∧
    execute_command envC 128 stBadAlias "x there\n" =
      CmdOut.ok { result := 1,
                  st := { stBadAlias with
                            history := ["alias x = echo hi\n", "x there\n"] },
                  acts := [] } := by
  exact ⟨by decide, by decide⟩

/-- C6 (amended): an alias expansion must be a *single token* — e.g. the
quoted definition `alias x = 'echo hi'`; that definition stores
`x -> echo hi`, and a subsequent invocation `x there` splices the
expansion in place of the head token, appends the remaining arguments
joined by single spaces, re-tokenizes the synthesized line `echo hi there`
and executes it as the external command `echo hi there`.  The unquoted
definition `alias x = echo hi` of the claim is rejected as a usage
error. -/
theorem C6_alias_expansion_corrected :
    (∀ (env : Env) (m : Nat) (st : ShellState),
        hm_get st.aliases "alias" = none →
        (okResult (execute_command env m st "alias x = 'echo hi'\n")).map
            (fun r => (r.result, hm_get r.st.aliases "x")) =
          some (0, some "echo hi")) ∧
    (∀ (env : Env) (m : Nat) (st : ShellState) (p : String),
        hm_get st.aliases "x" = some "echo hi" →
        find_executable_path env.fs st.pathEnv "echo" = some p →
        env.forkOk = true →
        (okResult (execute_command env m st "x there\n")).map (·.acts) =
          some [Act.external ["echo", "hi", "there"]]) := by
  constructor
  · intro env m st h
    have hpipe : hasPipe "alias x = 'echo hi'\n" = false := by decide
    have hparse : parseline "alias x = 'echo hi'\n" =
        some ["alias", "x", "=", "echo hi"] := by decide
    unfold execute_command
    rw [hpipe]
    simp only [Bool.false_eq_true, if_false]
    unfold singlePath
    simp only [hparse, appendHistory_aliases, h]
    simp [dispatchCmd, isBuiltin, builtinNames, runBuiltin, wsh_alias_b, okResult,
      appendHistory_aliases, hm_get_put_self]
  · intro env m st p h hfind hfork
    have hpipe : hasPipe "x there\n" = false := by decide
    have hparse : parseline "x there\n" = some ["x", "there"] := by decide
    have hjoin : joinSp "echo hi" ["there"] = "echo hi there" := by decide
    have hparse2 : parseline "echo hi there" = some ["echo", "hi", "there"] := by decide
    unfold execute_command
    rw [hpipe]
    simp only [Bool.false_eq_true, if_false]
    unfold singlePath
    simp only [hparse, appendHistory_aliases, h, hjoin, hparse2]
    unfold dispatchCmd
    rw [if_neg (by decide), if_neg (by decide)]
    unfold execute_external_command
    simp only [List.headD_cons, show isDirectFind "echo" = false from by decide,
      Bool.false_eq_true, if_false, appendHistory_pathEnv, hfind, hfork]
    cases env.extWait p ["echo", "hi", "there"] <;> simp [okResult]

/-- Witness for the amended C6: from a state holding `x -> echo hi`, with
`/bin/echo` executable, the line `x there` runs the external command
`echo hi there`. -/
theorem C6_alias_expansion_witness :
    hm_get stEcho.aliases "x" = some "echo hi" ∧
    (okResult (execute_command envEcho 128 stEcho "x there\n")).map (·.acts) =
      some [Act.external ["echo", "hi", "there"]] :=
  ⟨by decide,
    C6_alias_expansion_corrected.2 envEcho 128 stEcho "/bin/echo"
      (by decide) (by decide) rfl⟩

/-! ## C1 — the process exit code at teardown (corrected) -/

/-- Counterexample to C1 as stated: a batch script whose (only and) last
line runs the external command `fls`, which exits with status 1.  The
child's failure is recorded (`rc = 1`) but `execute_external_command`
returns `EXIT_SUCCESS`, `batch_main` hands that on as its result, and
`main` overwrites `rc` with it: the process exits 0 although the most
recently completed command failed. -/
theorem C1_exit_code_cex :
    batchRun envFail 128 initState 0 ["fls\n"] = RunOut.exited 0 ∧
    envFail.extWait "/bin/fls" ["fls"] = WaitRes.exited 1 ∧
    execute_command envFail 128 initState "fls\n" = CmdOut.ok rFail ∧
    rFail.st.rc = 1 := by
  refine ⟨by decide, by decide, by decide, by decide⟩

/-- C1 (amended): in interactive mode the process exit code at teardown is
the last recorded return code, so it reflects the last command's failure;
in batch mode the exit code is the last line's *dispatch result*, which is
`EXIT_SUCCESS` whenever the last external command was spawned and reaped —
even if it exited non-zero — so the batch exit code can be 0 after a
failing final command. -/
theorem C1_exit_code_corrected :
    (∀ (env : Env) (m : Nat) (st : ShellState) (l : String) (r : CmdResult),
        execute_command env m st l = CmdOut.ok r →
        interactiveRun env m st [l] = RunOut.exited r.st.rc ∧
        batchRun env m st 0 [l] = RunOut.exited r.result) ∧
    (interactiveRun envFail 128 initState ["fls\n"] = RunOut.exited 1 ∧
      batchRun envFail 128 initState 0 ["fls\n"] = RunOut.exited 0) := by
  constructor
  · intro env m st l r h
    constructor
    · simp [interactiveRun, h]
    · simp [batchRun, h]
  · exact ⟨by decide, by decide⟩

/-- Witness for the amended C1 at the concrete failing external command:
interactive teardown exits with the recorded code, batch teardown with the
dispatch result. -/
theorem C1_exit_code_witness :
    interactiveRun envFail 128 initState ["fls\n"] = RunOut.exited rFail.st.rc ∧
    batchRun envFail 128 initState 0 ["fls\n"] = RunOut.exited rFail.result :=
  C1_exit_code_corrected.1 envFail 128 initState "fls\n" rFail (by decide)

/-! ## C10 — the history builtin and the non-empty-history invariant -/

/-- Characters of every produced token come from the scanned buffer or
from the scanner's current accumulator. -/
theorem scan_token_chars (l : List Char) :
    ∀ (m : SMode) (ts : List (List Char)), scan m l = some ts →
      ∀ t ∈ ts, ∀ c ∈ t, c ∈ l ∨ c ∈ m.acc := by
  induction l with
  | nil =>
    intro m ts h t ht c hc
    cases m with
    | sep =>
      simp only [scan, Option.some.injEq] at h
      subst h
      simp at ht
    | plain a =>
      simp only [scan, Option.some.injEq] at h
      subst h
      simp at ht
    | quoted a => simp [scan] at h
  | cons c0 r ih =>
    intro m ts h t ht c hc
    cases m with
    | sep =>
      by_cases h1 : c0 = ' '
      · rw [scan, if_pos h1] at h
        rcases ih .sep ts h t ht c hc with hr | hacc
        · exact Or.inl (List.mem_cons_of_mem _ hr)
        · simp [SMode.acc] at hacc
      · by_cases h2 : c0 = '\''
        · rw [scan, if_neg h1, if_pos h2] at h
          rcases ih (.quoted []) ts h t ht c hc with hr | hacc
          · exact Or.inl (List.mem_cons_of_mem _ hr)
          · simp [SMode.acc] at hacc
        · rw [scan, if_neg h1, if_neg h2] at h
          rcases ih (.plain [c0]) ts h t ht c hc with hr | hacc
          · exact Or.inl (List.mem_cons_of_mem _ hr)
          · simp [SMode.acc] at hacc
            subst hacc
            exact Or.inl (List.mem_cons_self _ _)
    | plain acc =>
      by_cases h1 : c0 = ' '
      · rw [scan, if_pos h1] at h
        rcases Option.map_eq_some'.1 h with ⟨ts', hts', rfl⟩
        rcases List.mem_cons.1 ht with rfl | ht'
        · exact Or.inr hc
        · rcases ih .sep ts' hts' t ht' c hc with hr | hacc
          · exact Or.inl (List.mem_cons_of_mem _ hr)
          · simp [SMode.acc] at hacc
      · rw [scan, if_neg h1] at h
        rcases ih (.plain (acc ++ [c0])) ts h t ht c hc with hr | hacc
        · exact Or.inl (List.mem_cons_of_mem _ hr)
        · rcases List.mem_append.1 hacc with ha | hb
          · exact Or.inr ha
          · simp at hb
            subst hb
            exact Or.inl (List.mem_cons_self _ _)
    | quoted acc =>
      by_cases h1 : c0 = '\''
      · rw [scan, if_pos h1] at h
        rcases Option.map_eq_some'.1 h with ⟨ts', hts', rfl⟩
        rcases List.mem_cons.1 ht with rfl | ht'
        · exact Or.inr hc
        · rcases ih .sep ts' hts' t ht' c hc with hr | hacc
          · exact Or.inl (List.mem_cons_of_mem _ hr)
          · simp [SMode.acc] at hacc
      · rw [scan, if_neg h1] at h
        rcases ih (.quoted (acc ++ [c0])) ts h t ht c hc with hr | hacc
        · exact Or.inl (List.mem_cons_of_mem _ hr)
        · rcases List.mem_append.1 hacc with ha | hb
          · exact Or.inr ha
          · simp at hb
            subst hb
            exact Or.inl (List.mem_cons_self _ _)

/-- Every character of a parsed token is a space or a character of the
newline-stripped input line. -/
theorem parseline_token_chars {s : String} {ts : List String}
    (h : parseline s = some ts) {t : String} (ht : t ∈ ts) {c : Char}
    (hc : c ∈ t.data) : c = ' ' ∨ c ∈ stripNl s.data := by
  unfold parseline at h
  rcases Option.map_eq_some'.1 h with ⟨ts0, hts0, rfl⟩
  rcases List.mem_map.1 ht with ⟨t0, ht0, rfl⟩
  have hc0 : c ∈ t0 := hc
  rcases scan_token_chars (prepBuf s.data) .sep ts0 hts0 t0 ht0 c hc0 with hin | habs
  · unfold prepBuf at hin
    rcases List.mem_append.1 hin with h1 | h2
    · exact Or.inr h1
    · simp at h2
      exact Or.inl h2
  · simp [SMode.acc] at habs

/-- A non-whitespace character of the stripped line makes the history
filter record the line. -/
theorem hasNonWs_of_mem {s : String} {c : Char} (h : c ∈ stripNl s.data)
    (h1 : c ≠ ' ') (h2 : c ≠ '\t') : hasNonWs s = true := by
  unfold hasNonWs
  rw [List.any_eq_true]
  refine ⟨c, h, ?_⟩
  simp [h1, h2]

/-- `da_print` only underflows on the empty array. -/
theorem da_print_none {l : List String} (h : da_print l = none) : l = [] := by
  cases l with
  | nil => rfl
  | cons a t => simp [da_print] at h

/-- `wsh_history` never modifies the history. -/
theorem wsh_history_b_ret_history {st : ShellState} {argv : List String}
    {code : Nat} {st' : ShellState} (h : wsh_history_b st argv = .ret code st') :
    st'.history = st.history := by
  simp only [wsh_history_b] at h
  repeat' split at h
  all_goals first
  | (cases h; rfl)
  | exact BuiltinOut.noConfusion h

/-- `wsh_alias` never modifies the history. -/
theorem wsh_alias_b_ret_history {st : ShellState} {argv : List String}
    {code : Nat} {st' : ShellState} (h : wsh_alias_b st argv = .ret code st') :
    st'.history = st.history := by
  simp only [wsh_alias_b] at h
  repeat' split at h
  all_goals first
  | (cases h; rfl)
  | exact BuiltinOut.noConfusion h

/-- `wsh_unalias` never modifies the history. -/
theorem wsh_unalias_b_ret_history {st : ShellState} {argv : List String}
    {code : Nat} {st' : ShellState} (h : wsh_unalias_b st argv = .ret code st') :
    st'.history = st.history := by
  simp only [wsh_unalias_b] at h
  repeat' split at h
  all_goals first
  | (cases h; rfl)
  | exact BuiltinOut.noConfusion h

/-- `wsh_which` never modifies the history. -/
theorem wsh_which_b_ret_history {env : Env} {st : ShellState} {argv : List String}
    {code : Nat} {st' : ShellState} (h : wsh_which_b env st argv = .ret code st') :
    st'.history = st.history := by
  simp only [wsh_which_b] at h
  repeat' split at h
  all_goals first
  | (cases h; rfl)
  | exact BuiltinOut.noConfusion h

/-- `wsh_path` never modifies the history. -/
theorem wsh_path_b_ret_history {st : ShellState} {argv : List String}
    {code : Nat} {st' : ShellState} (h : wsh_path_b st argv = .ret code st') :
    st'.history = st.history := by
  simp only [wsh_path_b] at h
  repeat' split at h
  all_goals first
  | (cases h; rfl)
  | exact BuiltinOut.noConfusion h

/-- `wsh_cd` never modifies the history. -/
theorem wsh_cd_b_ret_history {env : Env} {st : ShellState} {argv : List String}
    {code : Nat} {st' : ShellState} (h : wsh_cd_b env st argv = .ret code st') :
    st'.history = st.history := by
  simp only [wsh_cd_b] at h
  repeat' split at h
  all_goals first
  | (cases h; rfl)
  | exact BuiltinOut.noConfusion h

/-- No builtin handler modifies the history. -/
theorem runBuiltin_ret_history {env : Env} {st : ShellState} {name : String}
    {argv : List String} {code : Nat} {st' : ShellState}
    (h : runBuiltin env st name argv = .ret code st') : st'.history = st.history := by
  unfold runBuiltin at h
  split at h
  · exact wsh_alias_b_ret_history h
  · split at h
    · exact wsh_unalias_b_ret_history h
    · split at h
      · exact wsh_which_b_ret_history h
      · split at h
        · exact wsh_path_b_ret_history h
        · split at h
          · exact wsh_cd_b_ret_history h
          · split at h
            · exact wsh_history_b_ret_history h
            · cases h; rfl

/-- The only crash of `wsh_alias` is the `argv[2]` NULL dereference. -/
theorem wsh_alias_b_crash {st : ShellState} {argv : List String} {k : CrashKind}
    (h : wsh_alias_b st argv = .crash k) : k = CrashKind.aliasArgv2 := by
  simp only [wsh_alias_b] at h
  repeat' split at h
  all_goals first
  | (cases h; rfl)
  | exact BuiltinOut.noConfusion h

/-- The only crash of `wsh_history` is the `da_print` underflow, and it
requires an empty history. -/
theorem wsh_history_b_crash {st : ShellState} {argv : List String} {k : CrashKind}
    (h : wsh_history_b st argv = .crash k) :
    k = CrashKind.historyUnderflow ∧ st.history = [] := by
  simp only [wsh_history_b] at h
  repeat' split at h
  all_goals first
  | exact BuiltinOut.noConfusion h
  | (cases h; exact ⟨rfl, da_print_none (by assumption)⟩)

/-- `wsh_unalias` never crashes. -/
theorem wsh_unalias_b_ne_crash {st : ShellState} {argv : List String} {k : CrashKind}
    (h : wsh_unalias_b st argv = .crash k) : False := by
  simp only [wsh_unalias_b] at h
  repeat' split at h
  all_goals exact BuiltinOut.noConfusion h

/-- `wsh_which` never crashes. -/
theorem wsh_which_b_ne_crash {env : Env} {st : ShellState} {argv : List String}
    {k : CrashKind} (h : wsh_which_b env st argv = .crash k) : False := by
  simp only [wsh_which_b] at h
  repeat' split at h
  all_goals exact BuiltinOut.noConfusion h

/-- `wsh_path` never crashes. -/
theorem wsh_path_b_ne_crash {st : ShellState} {argv : List String} {k : CrashKind}
    (h : wsh_path_b st argv = .crash k) : False := by
  simp only [wsh_path_b] at h
  repeat' split at h
  all_goals exact BuiltinOut.noConfusion h

/-- `wsh_cd` never crashes. -/
theorem wsh_cd_b_ne_crash {env : Env} {st : ShellState} {argv : List String}
    {k : CrashKind} (h : wsh_cd_b env st argv = .crash k) : False := by
  simp only [wsh_cd_b] at h
  repeat' split at h
  all_goals exact BuiltinOut.noConfusion h

/-- A crash out of the builtin table is the alias NULL dereference, or the
history underflow with an empty history. -/
theorem runBuiltin_crash_kind {env : Env} {st : ShellState} {name : String}
    {argv : List String} {k : CrashKind} (h : runBuiltin env st name argv = .crash k) :
    k = CrashKind.aliasArgv2 ∨ (k = CrashKind.historyUnderflow ∧ st.history = []) := by
  unfold runBuiltin at h
  split at h
  · exact Or.inl (wsh_alias_b_crash h)
  · split at h
    · exact (wsh_unalias_b_ne_crash h).elim
    · split at h
      · exact (wsh_which_b_ne_crash h).elim
      · split at h
        · exact (wsh_path_b_ne_crash h).elim
        · split at h
          · exact (wsh_cd_b_ne_crash h).elim
          · split at h
            · exact Or.inr (wsh_history_b_crash h)
            · exact BuiltinOut.noConfusion h

/-- An external command changes neither the alias table nor the history. -/
theorem execute_external_command_st (env : Env) (st : ShellState) (argv : List String) :
    (execute_external_command env st argv).2.1.aliases = st.aliases ∧
    (execute_external_command env st argv).2.1.history = st.history := by
  unfold execute_external_command
  dsimp only
  repeat' split
  all_goals simp

/-- An external command never records a builtin action. -/
theorem execute_external_command_acts (env : Env) (st : ShellState) (argv : List String)
    (n : String) (args : List String) :
    Act.builtin n args ∉ (execute_external_command env st argv).2.2 := by
  unfold execute_external_command
  dsimp only
  repeat' split
  all_goals simp

/-- The pipeline execution changes only `rc`. -/
theorem execute_pipeline_m_st (env : Env) (st : ShellState) (segs : List String) :
    (execute_pipeline_m env st segs).2.aliases = st.aliases ∧
    (execute_pipeline_m env st segs).2.history = st.history := by
  unfold execute_pipeline_m
  split <;> simp

/-- The only undefined behaviour in the pipeline pre-validation loop is
the NULL `command_name` handed to `strcmp`. -/
theorem validateLoop_crash {env : Env} {st : ShellState} :
    ∀ {segs : List String} {k : CrashKind},
      validateLoop env st segs = .crash k → k = CrashKind.nullCmd := by
  intro segs
  induction segs with
  | nil =>
    intro k h
    simp [validateLoop] at h
  | cons seg rest ih =>
    intro k h
    unfold validateLoop at h
    rcases hp : parseline seg with _ | ts
    · simp only [hp] at h
      exact PipeVal.noConfusion h
    · simp only [hp] at h
      cases ts with
      | nil => exact PipeVal.noConfusion h
      | cons h0 t0 =>
        rcases hg : hm_get st.aliases h0 with _ | a
        · simp only [hg] at h
          by_cases hc : checkHead env st h0 = true
          · rw [if_pos hc] at h
            rcases hv : validateLoop env st rest with l | _ | k2
            · rw [hv] at h
              exact PipeVal.noConfusion h
            · rw [hv] at h
              exact PipeVal.noConfusion h
            · rw [hv] at h
              have h2 : PipeVal.crash k2 = PipeVal.crash k := h
              cases h2
              exact ih hv
          · rw [if_neg hc] at h
            exact PipeVal.noConfusion h
        · simp only [hg] at h
          rcases hp2 : parseline (joinSp a t0) with _ | ts2
          · simp only [hp2] at h
            have h2 : PipeVal.crash CrashKind.nullCmd = PipeVal.crash k := h
            cases h2
            rfl
          · rw [hp2] at h
            cases ts2 with
            | nil =>
              have h2 : PipeVal.crash CrashKind.nullCmd = PipeVal.crash k := h
              cases h2
              rfl
            | cons h1 t1 =>
              have h3 : (if checkHead env st h1 = true then
                  (match validateLoop env st rest with
                    | PipeVal.ok l => PipeVal.ok (joinSp a t0 :: l)
                    | e => e)
                  else PipeVal.abortErr) = PipeVal.crash k := h
              by_cases hc : checkHead env st h1 = true
              · rw [if_pos hc] at h3
                rcases hv : validateLoop env st rest with l | _ | k2
                · rw [hv] at h3
                  exact PipeVal.noConfusion h3
                · rw [hv] at h3
                  have h4 : PipeVal.abortErr = PipeVal.crash k := h3
                  exact PipeVal.noConfusion h4
                · rw [hv] at h3
                  have h4 : PipeVal.crash k2 = PipeVal.crash k := h3
                  cases h4
                  exact ih hv
              · rw [if_neg hc] at h3
                exact PipeVal.noConfusion h3

/-- Case analysis of `dispatchCmd`: it cannot hit the history underflow
when the builtin-name hypothesis guarantees a recorded line, and every
returned state still satisfies the invariant, with a non-empty history
whenever a builtin action was recorded. -/
theorem dispatchCmd_cases (env : Env) (st1 : ShellState) (cmd : String)
    (argv : List String) (hInv1 : HistInv st1)
    (hbi : isBuiltin cmd = true → st1.history ≠ []) :
    (dispatchCmd env st1 cmd argv ≠ CmdOut.crash CrashKind.historyUnderflow) ∧
    (∀ r, dispatchCmd env st1 cmd argv = CmdOut.ok r →
      HistInv r.st ∧ ∀ args, Act.builtin "history" args ∈ r.acts → r.st.history ≠ []) := by
  unfold dispatchCmd
  by_cases hex : cmd = "exit"
  · rw [if_pos hex]
    by_cases hlen : argv.length > 1
    · rw [if_pos hlen]
      constructor
      · simp
      · intro r hr
        simp only [CmdOut.ok.injEq] at hr
        subst hr
        refine ⟨?_, ?_⟩
        · exact hInv1
        · intro args hargs
          simp at hargs
    · rw [if_neg hlen]
      constructor
      · simp
      · intro r hr
        exact CmdOut.noConfusion hr
  · rw [if_neg hex]
    by_cases hb : isBuiltin cmd = true
    · rw [if_pos hb]
      have hh1 : st1.history ≠ [] := hbi hb
      rcases hr : runBuiltin env st1 cmd argv with ⟨code, st'⟩ | k
      · simp only [hr]
        constructor
        · simp
        · intro r hrr
          simp only [CmdOut.ok.injEq] at hrr
          subst hrr
          have hhist' : st'.history = st1.history := runBuiltin_ret_history hr
          constructor
          · exact Or.inr (by
              show st'.history ≠ []
              rw [hhist']
              exact hh1)
          · intro args hargs
            show st'.history ≠ []
            rw [hhist']
            exact hh1
      · simp only [hr]
        constructor
        · intro hcr
          have hk : k = CrashKind.historyUnderflow := (CmdOut.crash.injEq _ _).mp hcr
          rcases runBuiltin_crash_kind hr with h1 | ⟨h2, h3⟩
          · rw [hk] at h1
            exact CrashKind.noConfusion h1
          · exact hh1 h3
        · intro r hrr
          exact CmdOut.noConfusion hrr
    · rw [if_neg hb]
      constructor
      · simp
      · intro r hrr
        have hst := execute_external_command_st env st1 argv
        simp only [CmdOut.ok.injEq] at hrr
        subst hrr
        constructor
        · rcases hInv1 with h | h
          · exact Or.inl (by
              show (execute_external_command env st1 argv).2.1.aliases = []
              rw [hst.1]
              exact h)
          · exact Or.inr (by
              show (execute_external_command env st1 argv).2.1.history ≠ []
              rw [hst.2]
              exact h)
        · intro args hargs
          exact absurd hargs (execute_external_command_acts env st1 argv _ _)

/-- Case analysis of the pipeline branch: no history underflow, invariant
preserved, and no builtin action ever recorded. -/
theorem pipelinePath_cases (env : Env) (m : Nat) (st1 : ShellState) (l : String)
    (hInv1 : HistInv st1) :
    (pipelinePath env m st1 l ≠ CmdOut.crash CrashKind.historyUnderflow) ∧
    (∀ r, pipelinePath env m st1 l = CmdOut.ok r →
      HistInv r.st ∧ ∀ args, Act.builtin "history" args ∈ r.acts → r.st.history ≠ []) := by
  unfold pipelinePath
  rcases hsp : splitSegs m 0 (splitOnCh '|' l.data) with u | segs
  · simp only [hsp]
    constructor
    · simp
    · intro r hr
      simp only [CmdOut.ok.injEq] at hr
      subst hr
      refine ⟨hInv1, ?_⟩
      intro args hargs
      simp at hargs
  · simp only [hsp]
    rcases hval : validateLoop env st1 segs with segs' | _ | k
    · simp only [hval]
      constructor
      · simp
      · intro r hr
        simp only [CmdOut.ok.injEq] at hr
        subst hr
        have hst := execute_pipeline_m_st env st1 segs'
        constructor
        · rcases hInv1 with h | h
          · exact Or.inl (by
              show (execute_pipeline_m env st1 segs').2.aliases = []
              rw [hst.1]
              exact h)
          · exact Or.inr (by
              show (execute_pipeline_m env st1 segs').2.history ≠ []
              rw [hst.2]
              exact h)
        · intro args hargs
          simp at hargs
    · simp only [hval]
      constructor
      · simp
      · intro r hr
        simp only [CmdOut.ok.injEq] at hr
        subst hr
        refine ⟨hInv1, ?_⟩
        intro args hargs
        simp at hargs
    · simp only [hval]
      constructor
      · intro hcr
        have hk : k = CrashKind.historyUnderflow := (CmdOut.crash.injEq _ _).mp hcr
        have hnc := validateLoop_crash hval
        rw [hk] at hnc
        exact CrashKind.noConfusion hnc
      · intro r hr
        exact CmdOut.noConfusion hr

/-- Case analysis of the single-command branch from an appended state. -/
theorem singlePath_cases (env : Env) (st : ShellState) (l : String)
    (hInv : HistInv st) :
    (singlePath env (appendHistory st l) l ≠ CmdOut.crash CrashKind.historyUnderflow) ∧
    (∀ r, singlePath env (appendHistory st l) l = CmdOut.ok r →
      HistInv r.st ∧ ∀ args, Act.builtin "history" args ∈ r.acts → r.st.history ≠ []) := by
  have hInv1 : HistInv (appendHistory st l) := by
    rcases hInv with h | h
    · exact Or.inl ((appendHistory_aliases st l).trans h)
    · exact Or.inr (appendHistory_history_ne st l h)
  unfold singlePath
  rcases hpl : parseline l with _ | ts
  · simp only [hpl]
    constructor
    · simp
    · intro r hr
      simp only [CmdOut.ok.injEq] at hr
      subst hr
      refine ⟨hInv1, ?_⟩
      intro args hargs
      simp at hargs
  · cases ts with
    | nil =>
      simp only [hpl]
      constructor
      · simp
      · intro r hr
        simp only [CmdOut.ok.injEq] at hr
        subst hr
        refine ⟨hInv1, ?_⟩
        intro args hargs
        simp at hargs
    | cons h t =>
      simp only [hpl]
      rcases hal : hm_get (appendHistory st l).aliases h with _ | a
      · simp only [hal]
        apply dispatchCmd_cases env (appendHistory st l) h (h :: t) hInv1
        intro hb
        have hmem : h = "exit" ∨ h = "alias" ∨ h = "unalias" ∨ h = "which" ∨
            h = "path" ∨ h = "cd" ∨ h = "history" := by
          simpa [isBuiltin, builtinNames] using hb
        have hchar : ∃ c : Char, c ∈ h.data ∧ c ≠ ' ' ∧ c ≠ '\t' := by
          rcases hmem with rfl | rfl | rfl | rfl | rfl | rfl | rfl
          · exact ⟨'e', by decide, by decide, by decide⟩
          · exact ⟨'a', by decide, by decide, by decide⟩
          · exact ⟨'u', by decide, by decide, by decide⟩
          · exact ⟨'w', by decide, by decide, by decide⟩
          · exact ⟨'p', by decide, by decide, by decide⟩
          · exact ⟨'c', by decide, by decide, by decide⟩
          · exact ⟨'h', by decide, by decide, by decide⟩
        rcases hchar with ⟨c, hc, hc1, hc2⟩
        rcases parseline_token_chars hpl (List.mem_cons_self h t) hc with he | hin
        · exact absurd he hc1
        · have hnw := hasNonWs_of_mem hin hc1 hc2
          rw [appendHistory_of_nonWs st l hnw]
          simp
      · simp only [hal]
        have hset : st.aliases ≠ [] := by
          rw [appendHistory_aliases] at hal
          exact hm_get_ne_nil hal
        have hh1 : (appendHistory st l).history ≠ [] := by
          rcases hInv with hia | hih
          · exact absurd hia hset
          · exact appendHistory_history_ne st l hih
        rcases hre : parseline (joinSp a t) with _ | ts2
        · simp only [hre]
          constructor
          · simp
          · intro r hr
            simp only [CmdOut.ok.injEq] at hr
            subst hr
            refine ⟨hInv1, ?_⟩
            intro args hargs
            simp at hargs
        · cases ts2 with
          | nil =>
            simp only [hre]
            constructor
            · simp
            · intro r hr
              simp only [CmdOut.ok.injEq] at hr
              subst hr
              refine ⟨hInv1, ?_⟩
              intro args hargs
              simp at hargs
          | cons h' t' =>
            simp only [hre]
            exact dispatchCmd_cases env (appendHistory st l) h' (h' :: t') hInv1
              (fun _ => hh1)

/-- C10 (amended): whenever the history builtin executes with no argument
through the dispatcher, the history array is non-empty, so `da_print`'s
`size - 1` bound never underflows.  But the claim's justification — that
the triggering line itself was appended because it necessarily contains a
non-whitespace character — is wrong: a whitespace-only line (e.g. a lone
tab bound by `alias <TAB> = history`) reaches the history builtin without
being recorded.  Non-emptiness holds anyway, because an alias can only
exist if its definition line was recorded earlier: `aliases ≠ [] →
history ≠ []` is an invariant of dispatch from the initial state. -/
theorem C10_history_nonempty_corrected :
    HistInv initState ∧
    (∀ (env : Env) (m : Nat) (st : ShellState) (l : String) (r : CmdResult),
        HistInv st → execute_command env m st l = CmdOut.ok r →
        HistInv r.st ∧ ∀ args, Act.builtin "history" args ∈ r.acts → r.st.history ≠ []) ∧
    (∀ (env : Env) (m : Nat) (st : ShellState) (l : String),
        HistInv st → execute_command env m st l ≠ CmdOut.crash CrashKind.historyUnderflow) := by
  refine ⟨Or.inl rfl, ?_, ?_⟩
  · intro env m st l r hInv hex
    unfold execute_command at hex
    by_cases hp : hasPipe l = true
    · rw [hp] at hex
      simp only [if_true] at hex
      have hInv1 : HistInv (appendHistory st l) := by
        rcases hInv with h | h
        · exact Or.inl ((appendHistory_aliases st l).trans h)
        · exact Or.inr (appendHistory_history_ne st l h)
      exact (pipelinePath_cases env m (appendHistory st l) l hInv1).2 r hex
    · rw [Bool.not_eq_true] at hp
      rw [hp] at hex
      simp only [Bool.false_eq_true, if_false] at hex
      exact (singlePath_cases env st l hInv).2 r hex
  · intro env m st l hInv
    unfold execute_command
    by_cases hp : hasPipe l = true
    · rw [hp]
      simp only [if_true]
      have hInv1 : HistInv (appendHistory st l) := by
        rcases hInv with h | h
        · exact Or.inl ((appendHistory_aliases st l).trans h)
        · exact Or.inr (appendHistory_history_ne st l h)
      exact (pipelinePath_cases env m (appendHistory st l) l hInv1).1
    · rw [Bool.not_eq_true] at hp
      rw [hp]
      simp only [Bool.false_eq_true, if_false]
      exact (singlePath_cases env st l hInv).1

/-- Counterexample to C10's justification as stated: after
`alias <TAB> = history`, the whitespace-only line consisting of a lone tab
executes the history builtin with no argument, yet the triggering line
contains no non-whitespace character and was **not** appended — the
history still holds only the earlier definition line. -/
theorem C10_history_cex :
    execute_command envC 128 initState "alias \t = history\n" =
      CmdOut.ok { result := 0, st := stTab,
                  acts := [Act.builtin "alias" ["alias", "\t", "=", "history"]] } ∧
    execute_command envC 128 stTab "\t\n" =
      CmdOut.ok { result := 0, st := stTab,
                  acts := [Act.builtin "history" ["history"]] } ∧
    hasNonWs "\t\n" = false ∧
    stTab.history = ["alias \t = history\n"] := by
  refine ⟨by decide, by decide, by decide, by decide⟩

/-- Witness for the amended C10: dispatching `history` from the initial
state executes the history builtin with the invariant preserved and a
non-empty history. -/
theorem C10_history_nonempty_witness :
    HistInv rHist.st ∧ rHist.st.history ≠ [] := by
  have h := C10_history_nonempty_corrected.2.1 envC 128 initState "history\n" rHist
    (Or.inl rfl) (by decide)
  exact ⟨h.1, h.2 ["history"] (by decide)⟩

end Wsh
